import Mathlib

/-!
Verification development for the flowsheet-processor repository.

The repository contains the serialized data model (`api_model.py`, pydantic
schema types) and the test suite of the interface module.  The interface
module itself (block/flowsheet interfaces, save/load, action registry) is not
part of the repository sources; where a definition embeds it, the definition
is modelled from the specification document and its doc comment says so.

Machine values (Python floats and strings) are embedded as `SVal`; JSON
documents as the inductive `Json`; dictionaries as insertion-ordered
association lists, matching Python dict semantics (no duplicate keys arise
from Python dicts, and the well-formedness predicates below make that
explicit where a proof needs it).
-/

namespace FsApi

/-- A scalar machine value: Python `Union[float, str]`.  Floats are embedded
as rationals, which is faithful for every value the tests and claims use. -/
inductive SVal where
  | num (x : Rat)
  | str (s : String)
deriving DecidableEq

/-- A JSON document, used for the persisted format (UTF-8 JSON files). -/
inductive Json where
  | null
  | bool (b : Bool)
  | num (x : Rat)
  | str (s : String)
  | arr (elems : List Json)
  | obj (fields : List (String × Json))

/-- Association-list lookup, the embedding of Python dict lookup
(first match; Python dicts never hold duplicate keys). -/
def alookup (n : String) : List (String × α) → Option α
  | [] => none
  | (k, v) :: t => if k == n then some v else alookup n t

/-- Keys of an association list, in insertion order. -/
def keysOf (l : List (String × α)) : List String :=
  l.map Prod.fst

/-- Boolean test that a list of keys has no duplicates (Python dict keys). -/
def distinct : List String → Bool
  | [] => true
  | x :: t => !(t.contains x) && distinct t

/-- Option-valued traversal of a list (Python list comprehension in which
each element must parse, else the whole parse fails). -/
def omap (p : α → Option β) : List α → Option (List β)
  | [] => some []
  | x :: t =>
    match p x, omap p t with
    | some y, some ys => some (y :: ys)
    | _, _ => none

theorem alookup_map_value (f : α → β) (n : String) :
    ∀ l : List (String × α),
      alookup n (l.map (fun p => (p.1, f p.2))) = (alookup n l).map f := by
  intro l
  induction l with
  | nil => rfl
  | cons h t ih =>
    simp only [List.map_cons, alookup]
    by_cases hk : h.1 == n
    · simp [hk]
    · simp [hk, ih]

theorem alookup_mem {l : List (String × α)} {n : String} {v : α}
    (h : alookup n l = some v) : (n, v) ∈ l := by
  induction l with
  | nil => simp [alookup] at h
  | cons p t ih =>
    simp only [alookup] at h
    split at h
    · rename_i hbeq
      have hp1 : p.1 = n := by simpa using hbeq
      have hp2 : p.2 = v := by simpa using h
      have hpv : p = (n, v) := by
        cases p
        simp_all
      rw [← hpv]
      exact List.mem_cons_self _ _
    · exact List.mem_cons_of_mem _ (ih h)

theorem alookup_of_distinct_mem {l : List (String × α)} {n : String} {v : α}
    (hd : distinct (keysOf l) = true) (hm : (n, v) ∈ l) :
    alookup n l = some v := by
  induction l with
  | nil => simp at hm
  | cons p t ih =>
    simp only [keysOf, List.map_cons, distinct, Bool.and_eq_true,
      Bool.not_eq_true'] at hd
    rcases List.mem_cons.mp hm with h1 | h2
    · rw [← h1]
      simp [alookup]
    · have hkey : p.1 ≠ n := by
        intro he
        have hmem : p.1 ∈ List.map Prod.fst t := he ▸ List.mem_map_of_mem Prod.fst h2
        have hc : (List.map Prod.fst t).contains p.1 = true := by
          simpa [List.contains] using List.elem_iff.mpr hmem
        rw [hc] at hd
        exact Bool.noConfusion hd.1
      simp only [alookup, show (p.1 == n) = false from by
        simpa using hkey]
      exact ih hd.2 h2

theorem map_self {l : List α} {f : α → α} (h : ∀ x ∈ l, f x = x) :
    l.map f = l := by
  induction l with
  | nil => rfl
  | cons x t ih =>
    simp only [List.map_cons]
    rw [h x (List.mem_cons_self x t), ih (fun y hy => h y (List.mem_cons_of_mem x hy))]

theorem omap_map {l : List α} {f : α → β} {p : β → Option α}
    (h : ∀ x ∈ l, p (f x) = some x) : omap p (l.map f) = some l := by
  induction l with
  | nil => rfl
  | cons x t ih =>
    simp only [List.map_cons, omap]
    rw [h x (List.mem_cons_self x t), ih (fun y hy => h y (List.mem_cons_of_mem x hy))]

theorem zip_map_fst_snd_self : ∀ l : List (α × β),
    (l.map Prod.fst).zip (l.map Prod.snd) = l := by
  intro l
  induction l with
  | nil => rfl
  | cons p t ih => simp [List.zip, ih]

/-! ## The serialized data model, from `api_model.py`

These four declarations embed the pydantic schema types exactly as declared
in `src/flowsheet_processor/api_model.py`.  The pydantic field `variables`
of `Block` is named `vars` here because `variables` is a reserved word in
Lean; nothing else is renamed.  Field defaults reproduce the pydantic
defaults. -/

/-- From `api_model.py`: `IndexedValue`, with parallel `index` and `value`
sequences (source comment on both fields: do not change order!). -/
structure IndexedValue where
  index : List (List SVal)
  value : List SVal
deriving DecidableEq

/-- From `api_model.py`: `ScalarValue`. -/
structure ScalarValue where
  value : SVal
deriving DecidableEq

/-- From `api_model.py`: the `value` field of `Variable` is
`Optional[Union[IndexedValue, ScalarValue]]`; the union tries
`IndexedValue` first, and `Optional` admits `None` (embedded as `none`). -/
abbrev VarValue := Option (IndexedValue ⊕ ScalarValue)

/-- From `api_model.py`: `Variable`, with the pydantic defaults
(empty strings, `readonly = False`, `value` absent). -/
structure Variable where
  display_name : String := ""
  description : String := ""
  units : String := ""
  readonly : Bool := false
  value : VarValue := none
deriving DecidableEq

/-- From `api_model.py`: `Block`, the recursive serialized block tree.
Constructor fields, in source order: `display_name`, `description`,
`category` (default value in source: the string default), `variables`
(here `vars`), `blocks`, `meta`. -/
inductive Block where
  | mk (display_name description category : String)
       (vars : List (String × Variable))
       (blocks : List (String × Block))
       (meta : List (String × Json))

def Block.display_name : Block → String
  | .mk dn _ _ _ _ _ => dn

def Block.description : Block → String
  | .mk _ ds _ _ _ _ => ds

def Block.category : Block → String
  | .mk _ _ c _ _ _ => c

/-- Accessor for the `variables` field of a serialized `Block`. -/
def Block.vars : Block → List (String × Variable)
  | .mk _ _ _ vs _ _ => vs

def Block.blocks : Block → List (String × Block)
  | .mk _ _ _ _ bs _ => bs

def Block.meta : Block → List (String × Json)
  | .mk _ _ _ _ _ m => m

/-- A `Block` built with no explicit fields, i.e. every pydantic default. -/
def Block.default : Block :=
  .mk "" "" "default" [] [] []

/-! ## JSON serialization of the data model

`save()` serializes `as_dict()` output as JSON (spec section 4.4 / 6).
These functions embed that wire format: each pydantic model serializes to a
JSON object listing every field in declaration order. -/

def svalToJson : SVal → Json
  | .num x => .num x
  | .str s => .str s

def IndexedValue.toJson (iv : IndexedValue) : Json :=
  .obj [("index", .arr (iv.index.map (fun row => .arr (row.map svalToJson)))),
        ("value", .arr (iv.value.map svalToJson))]

def ScalarValue.toJson (sv : ScalarValue) : Json :=
  .obj [("value", svalToJson sv.value)]

def varValueToJson : VarValue → Json
  | none => .null
  | some (.inl iv) => iv.toJson
  | some (.inr sv) => sv.toJson

def Variable.toJson (v : Variable) : Json :=
  .obj [("display_name", .str v.display_name),
        ("description", .str v.description),
        ("units", .str v.units),
        ("readonly", .bool v.readonly),
        ("value", varValueToJson v.value)]

def Block.toJson : Block → Json
  | .mk dn ds cat vs bs m =>
    .obj [("display_name", .str dn),
          ("description", .str ds),
          ("category", .str cat),
          ("variables", .obj (vs.map (fun p => (p.1, p.2.toJson)))),
          ("blocks", .obj (bs.attach.map (fun p => (p.1.1, Block.toJson p.1.2)))),
          ("meta", .obj m)]
termination_by b => sizeOf b
decreasing_by
  have h1 := List.sizeOf_lt_of_mem p.2
  obtain ⟨⟨k, c⟩, hp⟩ := p
  simp only [Prod.mk.sizeOf_spec, Block.mk.sizeOf_spec] at *
  omega

/-- Unfolding equation for `Block.toJson` without the termination helper. -/
theorem Block.toJson_mk (dn ds cat : String) (vs : List (String × Variable))
    (bs : List (String × Block)) (m : List (String × Json)) :
    (Block.mk dn ds cat vs bs m).toJson =
    .obj [("display_name", .str dn),
          ("description", .str ds),
          ("category", .str cat),
          ("variables", .obj (vs.map (fun p => (p.1, p.2.toJson)))),
          ("blocks", .obj (bs.map (fun p => (p.1, p.2.toJson)))),
          ("meta", .obj m)] := by
  simp only [Block.toJson]
  rw [List.attach_map_val bs (fun p => (p.1, p.2.toJson))]

/-! ## Deserialization (pydantic validation with field defaults)

Loading parses JSON back into the schema types.  A missing field takes the
pydantic default declared in `api_model.py`; a field of the wrong type fails
validation.  The `value` union tries `IndexedValue` before `ScalarValue`,
matching the declaration order `Union[IndexedValue, ScalarValue]`. -/

def parseSVal : Json → Option SVal
  | .num x => some (.num x)
  | .str s => some (.str s)
  | _ => none

def parseIndexRow : Json → Option (List SVal)
  | .arr es => omap parseSVal es
  | _ => none

def parseIndexedValue : Json → Option IndexedValue
  | .obj flds =>
    match alookup "index" flds, alookup "value" flds with
    | some (.arr rows), some (.arr es) =>
      match omap parseIndexRow rows, omap parseSVal es with
      | some idx, some vals => some ⟨idx, vals⟩
      | _, _ => none
    | _, _ => none
  | _ => none

def parseScalarValue : Json → Option ScalarValue
  | .obj flds =>
    match alookup "value" flds with
    | some jv => (parseSVal jv).map ScalarValue.mk
    | none => none
  | _ => none

def parseVarValue (j : Json) : Option (IndexedValue ⊕ ScalarValue) :=
  match parseIndexedValue j with
  | some iv => some (.inl iv)
  | none => (parseScalarValue j).map Sum.inr

/-- Parse a string field, with the given default when absent. -/
def parseStrField (flds : List (String × Json)) (k : String) (dflt : String) :
    Option String :=
  match alookup k flds with
  | none => some dflt
  | some (.str s) => some s
  | some _ => none

/-- Parse a boolean field, with the given default when absent. -/
def parseBoolField (flds : List (String × Json)) (k : String) (dflt : Bool) :
    Option Bool :=
  match alookup k flds with
  | none => some dflt
  | some (.bool b) => some b
  | some _ => none

/-- Deserialize a `Variable`: absent metadata fields take the pydantic
defaults, and an absent or null `value` yields `none` (the `Optional`
default). -/
def parseVariable : Json → Option Variable
  | .obj flds =>
    match parseStrField flds "display_name" "", parseStrField flds "description" "",
          parseStrField flds "units" "", parseBoolField flds "readonly" false with
    | some dn, some ds, some un, some ro =>
      match alookup "value" flds with
      | none => some ⟨dn, ds, un, ro, none⟩
      | some .null => some ⟨dn, ds, un, ro, none⟩
      | some jv => (parseVarValue jv).map (fun vv => ⟨dn, ds, un, ro, some vv⟩)
    | _, _, _, _ => none
  | _ => none

def parseVarsField (flds : List (String × Json)) :
    Option (List (String × Variable)) :=
  match alookup "variables" flds with
  | none => some []
  | some (.obj vflds) => omap (fun p => (parseVariable p.2).map (fun v => (p.1, v))) vflds
  | some _ => none

def parseMetaField (flds : List (String × Json)) :
    Option (List (String × Json)) :=
  match alookup "meta" flds with
  | none => some []
  | some (.obj m) => some m
  | some _ => none

theorem sizeOf_alookup {flds : List (String × Json)} {n : String} {j : Json}
    (h : alookup n flds = some j) : sizeOf j < sizeOf flds := by
  have hm := List.sizeOf_lt_of_mem (alookup_mem h)
  simp only [Prod.mk.sizeOf_spec] at hm
  omega

/-- Deserialize a `Block` tree: absent fields take the pydantic defaults
(`category = "default"`, empty `variables`, `blocks` and `meta`). -/
def parseBlock : Json → Option Block
  | .obj flds =>
    match parseStrField flds "display_name" "", parseStrField flds "description" "",
          parseStrField flds "category" "default", parseVarsField flds,
          parseMetaField flds with
    | some dn, some ds, some cat, some vs, some m =>
      match hb : alookup "blocks" flds with
      | none => some (Block.mk dn ds cat vs [] m)
      | some (.obj bflds) =>
        (omap (fun p => (parseBlock p.1.2).map (fun b => (p.1.1, b))) bflds.attach).map
          (fun bs => Block.mk dn ds cat vs bs m)
      | some _ => none
    | _, _, _, _, _ => none
  | _ => none
termination_by j => sizeOf j
decreasing_by
  have h1 := List.sizeOf_lt_of_mem p.2
  have h2 := sizeOf_alookup hb
  obtain ⟨⟨k, c⟩, hp⟩ := p
  simp only [Prod.mk.sizeOf_spec, Json.obj.sizeOf_spec] at *
  omega

/-- Induction principle for the nested `Block` tree. -/
theorem Block.blockInduction {P : Block → Prop}
    (h : ∀ dn ds cat vs bs m, (∀ p ∈ bs, P p.2) → P (Block.mk dn ds cat vs bs m)) :
    ∀ b, P b
  | .mk dn ds cat vs bs m =>
    h dn ds cat vs bs m (fun p hp => Block.blockInduction h p.2)
termination_by b => sizeOf b
decreasing_by
  have h1 := List.sizeOf_lt_of_mem hp
  obtain ⟨k, c⟩ := p
  simp only [Prod.mk.sizeOf_spec, Block.mk.sizeOf_spec] at *
  omega

theorem omap_subtype {Q : α → Prop} (F : α → Option β) :
    ∀ l : List {x // Q x}, omap (fun p => F p.1) l = omap F (l.map Subtype.val) := by
  intro l
  induction l with
  | nil => rfl
  | cons x t ih => simp only [omap, List.map_cons, ih]

theorem parseSVal_svalToJson (v : SVal) : parseSVal (svalToJson v) = some v := by
  cases v <;> rfl

theorem parseIndexedValue_toJson (iv : IndexedValue) :
    parseIndexedValue iv.toJson = some iv := by
  obtain ⟨idx, vals⟩ := iv
  have h1 : omap parseIndexRow (idx.map (fun row => Json.arr (row.map svalToJson))) =
      some idx :=
    omap_map (fun row _ => by
      simp only [parseIndexRow]
      exact omap_map (fun v _ => parseSVal_svalToJson v))
  have h2 : omap parseSVal (vals.map svalToJson) = some vals :=
    omap_map (fun v _ => parseSVal_svalToJson v)
  simp [IndexedValue.toJson, parseIndexedValue, alookup, h1, h2]

theorem parseIndexedValue_scalar (sv : ScalarValue) :
    parseIndexedValue sv.toJson = none := by
  rfl

theorem parseVarValue_toJson (vv : IndexedValue ⊕ ScalarValue) :
    parseVarValue (varValueToJson (some vv)) = some vv := by
  cases vv with
  | inl iv =>
    simp only [varValueToJson, parseVarValue, parseIndexedValue_toJson]
  | inr sv =>
    simp only [varValueToJson, parseVarValue, parseIndexedValue_scalar,
      parseScalarValue, alookup]
    obtain ⟨v⟩ := sv
    simp [ScalarValue.toJson, alookup, parseSVal_svalToJson]

theorem parseVariable_toJson (v : Variable) : parseVariable v.toJson = some v := by
  obtain ⟨dn, ds, un, ro, vv⟩ := v
  simp only [Variable.toJson, parseVariable, parseStrField, parseBoolField, alookup]
  norm_num
  cases vv with
  | none => rfl
  | some w =>
    have hne : varValueToJson (some w) ≠ Json.null := by
      cases w with
      | inl iv => simp [varValueToJson, IndexedValue.toJson]
      | inr sv => simp [varValueToJson, ScalarValue.toJson]
    cases hw : varValueToJson (some w) with
    | null => exact absurd hw hne
    | _ =>
      rw [← hw]
      simp [parseVarValue_toJson]

theorem parseBlock_toJson : ∀ b : Block, parseBlock b.toJson = some b := by
  intro b
  refine @Block.blockInduction (fun bb => parseBlock bb.toJson = some bb)
    (fun dn ds cat vs bs m ih => ?_) b
  show parseBlock (Block.mk dn ds cat vs bs m).toJson = some (Block.mk dn ds cat vs bs m)
  rw [Block.toJson_mk]
  have hv : omap (fun r => (parseVariable r.2).map (fun v => (r.1, v)))
      (vs.map (fun q => (q.1, q.2.toJson))) = some vs :=
    omap_map (fun x _ => by simp [parseVariable_toJson])
  have hbs : omap (fun r => (parseBlock r.2).map (fun b => (r.1, b)))
      (bs.map (fun q => (q.1, q.2.toJson))) = some bs :=
    omap_map (fun x hx => by simp [ih x hx])
  simp [parseBlock, parseStrField, parseVarsField, parseMetaField, alookup,
    hv, hbs, omap_subtype, List.attach_map_subtype_val]
  have hsub := omap_subtype (fun r => (parseBlock r.2).map (fun b => (r.1, b)))
    ((bs.map (fun p => (p.1, p.2.toJson))).attach)
  rw [List.attach_map_subtype_val] at hsub
  exact hsub.trans hbs

/-! ## The top-level persisted form

The persisted format (spec section 6) is the JSON object
`{"blocks": {name: Block, ...}, "meta": {...}}`. -/

/-- Modelled from the spec: the top-level mapping produced by `as_dict()`
and consumed by `load()`: only the keys `blocks` and `meta`. -/
structure TopDict where
  blocks : List (String × Block)
  meta : List (String × Json)

def TopDict.toJson (d : TopDict) : Json :=
  .obj [("blocks", .obj (d.blocks.map (fun p => (p.1, p.2.toJson)))),
        ("meta", .obj d.meta)]

/-- Modelled from the spec: reading the persisted JSON back into the
top-level mapping; both keys are required, as `load()` reads them. -/
def parseTopDict : Json → Option TopDict
  | .obj flds =>
    match alookup "blocks" flds, alookup "meta" flds with
    | some (.obj bflds), some (.obj m) =>
      (omap (fun p => (parseBlock p.2).map (fun b => (p.1, b))) bflds).map
        (fun bs => ⟨bs, m⟩)
    | _, _ => none
  | _ => none

theorem parseTopDict_toJson (d : TopDict) : parseTopDict d.toJson = some d := by
  obtain ⟨bs, m⟩ := d
  have hbs : omap (fun r => (parseBlock r.2).map (fun b => (r.1, b)))
      (bs.map (fun q => (q.1, q.2.toJson))) = some bs :=
    omap_map (fun x _ => by simp [parseBlock_toJson])
  simp [TopDict.toJson, parseTopDict, alookup, hbs]

/-! ## The live model and bound interfaces

The interface module itself is not among the repository sources (only its
test suite is), so the definitions in this section are modelled from the
specification document, as their doc comments state. -/

/-- Python exception kinds distinguished by the spec and the tests:
validation errors (`ValueError`) and lookup errors (`KeyError`). -/
inductive PyErr where
  | valueError
  | keyError
deriving DecidableEq

/-- Modelled from the spec (4.3/6): the current value of a live model
variable — scalar, or indexed as (index, value) pairs in the natural
iteration order of the model (not re-sorted). -/
inductive ModelValue where
  | scalar (v : SVal)
  | indexed (entries : List (List SVal × SVal))
deriving DecidableEq

/-- Modelled from the spec (4.3): one entry of the export specification of
a bound Block Interface, resolved against the model block: display
metadata (defaulted from the model variable when not overridden), the
readonly flag, and the live model value. -/
structure LiveVar where
  display_name : String := ""
  description : String := ""
  units : String := ""
  readonly : Bool := false
  value : ModelValue
deriving DecidableEq

/-- Modelled from the spec (3/4.4): a bound Block Interface together with
the sub-tree of registered child interfaces discovered below it: display
metadata, category, exported variables resolved on the model block, named
children, and the free-form meta bag. -/
inductive LiveBlock where
  | mk (display_name description category : String)
       (vars : List (String × LiveVar))
       (children : List (String × LiveBlock))
       (meta : List (String × Json))

def LiveBlock.vars : LiveBlock → List (String × LiveVar)
  | .mk _ _ _ vs _ _ => vs

def LiveBlock.children : LiveBlock → List (String × LiveBlock)
  | .mk _ _ _ _ cs _ => cs

/-- Modelled from the spec (3): build the `IndexedValue` record from the
(index, value) pairs of an indexed model variable: the index sequence and
the value sequence are the two projections, kept parallel and in order. -/
def mkIndexedValue (entries : List (List SVal × SVal)) : IndexedValue :=
  ⟨entries.map Prod.fst, entries.map Prod.snd⟩

/-- Modelled from the spec (4.3): the serialized shape of a live value —
indexed model variables yield an `IndexedValue`, scalar ones a
`ScalarValue`. -/
def serializeValue : ModelValue → IndexedValue ⊕ ScalarValue
  | .scalar v => .inr ⟨v⟩
  | .indexed es => .inl (mkIndexedValue es)

/-- Modelled from the spec (4.3): one fully populated `Variable` record as
produced by `get_exported_variables()`. -/
def LiveVar.toVariable (lv : LiveVar) : Variable :=
  { display_name := lv.display_name, description := lv.description,
    units := lv.units, readonly := lv.readonly,
    value := some (serializeValue lv.value) }

/-- Modelled from the spec (4.3): `get_exported_variables()` — one record
per export-specification entry, resolved on the model block. -/
def get_exported_variables (lb : LiveBlock) : List (String × Variable) :=
  lb.vars.map (fun p => (p.1, p.2.toVariable))

/-- Modelled from the spec (4.3): push a loaded value onto the live model
variable, honoring scalar/indexed shape; an indexed payload re-pairs the
parallel index and value sequences in order, an absent payload changes
nothing. -/
def pushValue (lv : LiveVar) : VarValue → LiveVar
  | some (.inl iv) => { lv with value := .indexed (iv.index.zip iv.value) }
  | some (.inr sv) => { lv with value := .scalar sv.value }
  | none => lv

/-- Modelled from the spec (4.3): `set_exported_variable_value(name, value)`
— a no-op when the readonly flag of the named variable is set (the sole
enforcement point of read-only protection), else the value is pushed onto
the live model variable. -/
def set_exported_variable_value (lb : LiveBlock) (name : String) (v : VarValue) :
    LiveBlock :=
  match lb with
  | .mk dn ds cat vs cs m =>
    .mk dn ds cat
      (vs.map (fun p =>
        if p.1 == name then (p.1, if p.2.readonly then p.2 else pushValue p.2 v) else p))
      cs m

/-- Modelled from the spec (4.4): serialize the bound tree into the `Block`
form of `api_model.py`. -/
def LiveBlock.as_dict : LiveBlock → Block
  | .mk dn ds cat vs cs m =>
    .mk dn ds cat (vs.map (fun p => (p.1, p.2.toVariable)))
      (cs.attach.map (fun p => (p.1.1, LiveBlock.as_dict p.1.2))) m
termination_by lb => sizeOf lb
decreasing_by
  have h1 := List.sizeOf_lt_of_mem p.2
  obtain ⟨⟨k, c⟩, hp⟩ := p
  simp only [Prod.mk.sizeOf_spec, LiveBlock.mk.sizeOf_spec] at *
  omega

/-- Unfolding equation for `LiveBlock.as_dict`. -/
theorem LiveBlock.as_dict_mk (dn ds cat : String) (vs : List (String × LiveVar))
    (cs : List (String × LiveBlock)) (m : List (String × Json)) :
    (LiveBlock.mk dn ds cat vs cs m).as_dict =
    Block.mk dn ds cat (vs.map (fun p => (p.1, p.2.toVariable)))
      (cs.map (fun p => (p.1, p.2.as_dict))) m := by
  simp only [LiveBlock.as_dict]
  rw [List.attach_map_val cs (fun p => (p.1, p.2.as_dict))]

/-- Well-formedness of a bound tree: variable names and child names are
distinct within each block, as Python dict keys always are. -/
def LiveBlock.wf : LiveBlock → Bool
  | .mk _ _ _ vs cs _ =>
    distinct (keysOf vs) && distinct (keysOf cs) &&
      (cs.attach.map (fun p => LiveBlock.wf p.1.2)).all (fun x => x)
termination_by lb => sizeOf lb
decreasing_by
  have h1 := List.sizeOf_lt_of_mem p.2
  obtain ⟨⟨k, c⟩, hp⟩ := p
  simp only [Prod.mk.sizeOf_spec, LiveBlock.mk.sizeOf_spec] at *
  omega

/-- Unfolding equation for `LiveBlock.wf`. -/
theorem LiveBlock.wf_mk (dn ds cat : String) (vs : List (String × LiveVar))
    (cs : List (String × LiveBlock)) (m : List (String × Json)) :
    (LiveBlock.mk dn ds cat vs cs m).wf =
    (distinct (keysOf vs) && distinct (keysOf cs) &&
      (cs.map (fun p => p.2.wf)).all (fun x => x)) := by
  simp only [LiveBlock.wf]
  rw [List.attach_map_val cs (fun p => p.2.wf)]

/-- Induction principle for the nested `LiveBlock` tree. -/
theorem LiveBlock.liveBlockInduction {P : LiveBlock → Prop}
    (h : ∀ dn ds cat vs cs m, (∀ p ∈ cs, P p.2) → P (LiveBlock.mk dn ds cat vs cs m)) :
    ∀ lb, P lb
  | .mk dn ds cat vs cs m =>
    h dn ds cat vs cs m (fun p hp => LiveBlock.liveBlockInduction h p.2)
termination_by lb => sizeOf lb
decreasing_by
  have h1 := List.sizeOf_lt_of_mem hp
  obtain ⟨k, c⟩ := p
  simp only [Prod.mk.sizeOf_spec, LiveBlock.mk.sizeOf_spec] at *
  omega

/-- Modelled from the spec (4.4): the tree-update part of `load()`: walk the
loaded tree and the live tree in lock-step, matching blocks and variables
by name at each level.  A variable present in both trees receives the
loaded value with `set_exported_variable_value` semantics (readonly
variables are left untouched); variables and blocks with no counterpart
are left at their live state (blocks present in only one tree are
skipped). -/
def load_tree : Block → LiveBlock → LiveBlock
  | loaded, .mk dn ds cat vs cs m =>
    .mk dn ds cat
      (vs.map (fun p =>
        ((alookup p.1 loaded.vars).map (fun dv =>
          (p.1, if p.2.readonly then p.2 else pushValue p.2 dv.value))).getD p))
      (cs.attach.map (fun p =>
        (p.1.1,
         ((alookup p.1.1 loaded.blocks).map (fun db => load_tree db p.1.2)).getD p.1.2)))
      m
termination_by loaded lb => sizeOf lb
decreasing_by
  have h1 := List.sizeOf_lt_of_mem p.2
  obtain ⟨⟨k, c⟩, hp⟩ := p
  simp only [Prod.mk.sizeOf_spec, LiveBlock.mk.sizeOf_spec] at *
  omega

/-- Unfolding equation for `load_tree`. -/
theorem load_tree_mk (loaded : Block) (dn ds cat : String)
    (vs : List (String × LiveVar)) (cs : List (String × LiveBlock))
    (m : List (String × Json)) :
    load_tree loaded (.mk dn ds cat vs cs m) =
    .mk dn ds cat
      (vs.map (fun p =>
        ((alookup p.1 loaded.vars).map (fun dv =>
          (p.1, if p.2.readonly then p.2 else pushValue p.2 dv.value))).getD p))
      (cs.map (fun p =>
        (p.1,
         ((alookup p.1 loaded.blocks).map (fun db => load_tree db p.2)).getD p.2)))
      m := by
  simp only [load_tree]
  rw [List.attach_map_val cs (fun p =>
    (p.1, ((alookup p.1 loaded.blocks).map (fun db => load_tree db p.2)).getD p.2))]

/-- Modelled from the spec (4.4): the reconciliation record of variables
present in the live export but absent from the loaded tree (missing),
per block, keyed by the path of block names from the root; blocks with no
missing variables contribute no entry. -/
def var_missing_rec : List String → Block → LiveBlock → List (List String × List String)
  | path, loaded, .mk _ _ _ vs cs _ =>
    (if (vs.filter (fun p => (alookup p.1 loaded.vars).isNone)).isEmpty then []
     else [(path, ((vs.filter (fun p => (alookup p.1 loaded.vars).isNone)).map Prod.fst))]) ++
    (cs.attach.map (fun p =>
      ((alookup p.1.1 loaded.blocks).map
        (fun db => var_missing_rec (path ++ [p.1.1]) db p.1.2)).getD [])).flatten
termination_by path loaded lb => sizeOf lb
decreasing_by
  have h1 := List.sizeOf_lt_of_mem p.2
  obtain ⟨⟨k, c⟩, hp⟩ := p
  simp only [Prod.mk.sizeOf_spec, LiveBlock.mk.sizeOf_spec] at *
  omega

/-- Unfolding equation for `var_missing_rec`. -/
theorem var_missing_rec_mk (path : List String) (loaded : Block)
    (dn ds cat : String) (vs : List (String × LiveVar))
    (cs : List (String × LiveBlock)) (m : List (String × Json)) :
    var_missing_rec path loaded (.mk dn ds cat vs cs m) =
    (if (vs.filter (fun p => (alookup p.1 loaded.vars).isNone)).isEmpty then []
     else [(path, ((vs.filter (fun p => (alookup p.1 loaded.vars).isNone)).map Prod.fst))]) ++
    (cs.map (fun p =>
      ((alookup p.1 loaded.blocks).map
        (fun db => var_missing_rec (path ++ [p.1]) db p.2)).getD [])).flatten := by
  simp only [var_missing_rec]
  rw [List.attach_map_val cs (fun p =>
    ((alookup p.1 loaded.blocks).map
      (fun db => var_missing_rec (path ++ [p.1]) db p.2)).getD [])]

/-- Modelled from the spec (4.4): the reconciliation record of variables
present in the loaded tree but absent from the live export (extra), per
block, keyed by the path of block names from the root; these are recorded
and written nowhere. -/
def var_extra_rec : List String → Block → LiveBlock → List (List String × List String)
  | path, loaded, .mk _ _ _ vs cs _ =>
    (if (loaded.vars.filter (fun p => (alookup p.1 vs).isNone)).isEmpty then []
     else [(path, ((loaded.vars.filter (fun p => (alookup p.1 vs).isNone)).map Prod.fst))]) ++
    (cs.attach.map (fun p =>
      ((alookup p.1.1 loaded.blocks).map
        (fun db => var_extra_rec (path ++ [p.1.1]) db p.1.2)).getD [])).flatten
termination_by path loaded lb => sizeOf lb
decreasing_by
  have h1 := List.sizeOf_lt_of_mem p.2
  obtain ⟨⟨k, c⟩, hp⟩ := p
  simp only [Prod.mk.sizeOf_spec, LiveBlock.mk.sizeOf_spec] at *
  omega

/-- Unfolding equation for `var_extra_rec`. -/
theorem var_extra_rec_mk (path : List String) (loaded : Block)
    (dn ds cat : String) (vs : List (String × LiveVar))
    (cs : List (String × LiveBlock)) (m : List (String × Json)) :
    var_extra_rec path loaded (.mk dn ds cat vs cs m) =
    (if (loaded.vars.filter (fun p => (alookup p.1 vs).isNone)).isEmpty then []
     else [(path, ((loaded.vars.filter (fun p => (alookup p.1 vs).isNone)).map Prod.fst))]) ++
    (cs.map (fun p =>
      ((alookup p.1 loaded.blocks).map
        (fun db => var_extra_rec (path ++ [p.1]) db p.2)).getD [])).flatten := by
  simp only [var_extra_rec]
  rw [List.attach_map_val cs (fun p =>
    ((alookup p.1 loaded.blocks).map
      (fun db => var_extra_rec (path ++ [p.1]) db p.2)).getD [])]

/-- Modelled from the spec (3/4.4): the Flowsheet Interface — the bound
root Block Interface tree, its root name, the top-level meta bag, and the
reconciliation records of the last load (absent before any load). -/
structure FlowsheetInterface where
  root_name : String
  root : LiveBlock
  meta : List (String × Json)
  var_missing : Option (List (List String × List String)) := none
  var_extra : Option (List (List String × List String)) := none

/-- Modelled from the spec (4.4): `as_dict()` — the serialized tree rooted
as the single root Block entry under `blocks`, plus `meta`; the top-level
options of the Flowsheet Interface are folded into the root entry. -/
def FlowsheetInterface.as_dict (fsi : FlowsheetInterface) : TopDict :=
  ⟨[(fsi.root_name, fsi.root.as_dict)], fsi.meta⟩

/-- Modelled from the spec (4.4/6): `save()` serializes `as_dict()` as
JSON. -/
def FlowsheetInterface.save (fsi : FlowsheetInterface) : Json :=
  fsi.as_dict.toJson

/-- Modelled from the spec (4.4): the in-memory part of `load()`: reconcile
the loaded tree against the live tree (the root block matched by name) and
store the reconciliation records. -/
def FlowsheetInterface.load_dict (fsi : FlowsheetInterface) (d : TopDict) :
    FlowsheetInterface :=
  match alookup fsi.root_name d.blocks with
  | none => { fsi with var_missing := some [], var_extra := some [] }
  | some db =>
    { fsi with
      root := load_tree db fsi.root,
      var_missing := some (var_missing_rec [fsi.root_name] db fsi.root),
      var_extra := some (var_extra_rec [fsi.root_name] db fsi.root) }

/-- Modelled from the spec (4.4): `load()` / `load_from()` — parse the
persisted JSON (I/O and parse failures propagate) and reconcile it against
the live tree.  `load_from` first binds a fresh interface to the same root
model block; with the registry unchanged that yields the same live tree,
so on this state it is the same operation. -/
def FlowsheetInterface.load_json (fsi : FlowsheetInterface) (j : Json) :
    Option FlowsheetInterface :=
  (parseTopDict j).map fsi.load_dict

/-- Modelled from the spec (4.4/7): `get_var_missing()` — fails with a
lookup error (KeyError, as the test suite requires) when no load has ever
been performed on this instance. -/
def FlowsheetInterface.get_var_missing (fsi : FlowsheetInterface) :
    Except PyErr (List (List String × List String)) :=
  match fsi.var_missing with
  | none => .error .keyError
  | some d => .ok d

/-- Modelled from the spec (4.4/7): `get_var_extra()` — fails with a lookup
error when no load has ever been performed on this instance. -/
def FlowsheetInterface.get_var_extra (fsi : FlowsheetInterface) :
    Except PyErr (List (List String × List String)) :=
  match fsi.var_extra with
  | none => .error .keyError
  | some d => .ok d

/-- Well-formedness of a bound Flowsheet Interface: dict keys are distinct
throughout the live tree. -/
def FlowsheetInterface.wf (fsi : FlowsheetInterface) : Bool :=
  fsi.root.wf

theorem pushValue_serialize_self (lv : LiveVar) :
    pushValue lv (some (serializeValue lv.value)) = lv := by
  obtain ⟨dn, ds, un, ro, val⟩ := lv
  cases val with
  | scalar v => rfl
  | indexed es =>
    simp [serializeValue, pushValue, mkIndexedValue, zip_map_fst_snd_self]

theorem alookup_isSome_of_mem {l : List (String × α)} {p : String × α}
    (hm : p ∈ l) : (alookup p.1 l).isSome = true := by
  induction l with
  | nil => simp at hm
  | cons q t ih =>
    by_cases hq : q.1 == p.1
    · simp [alookup, hq]
    · rcases List.mem_cons.mp hm with h1 | h2
      · rw [h1] at hq
        simp at hq
      · simp [alookup, hq, ih h2]

theorem wf_children {dn ds cat : String} {vs : List (String × LiveVar)}
    {cs : List (String × LiveBlock)} {m : List (String × Json)}
    (hwf : (LiveBlock.mk dn ds cat vs cs m).wf = true) :
    distinct (keysOf vs) = true ∧ distinct (keysOf cs) = true ∧
      ∀ p ∈ cs, p.2.wf = true := by
  rw [LiveBlock.wf_mk] at hwf
  simp only [Bool.and_eq_true, List.all_eq_true] at hwf
  refine ⟨hwf.1.1, hwf.1.2, fun p hp => ?_⟩
  exact hwf.2 p.2.wf (List.mem_map_of_mem (fun q => q.2.wf) hp)

theorem load_tree_self : ∀ lb : LiveBlock, lb.wf = true → load_tree lb.as_dict lb = lb := by
  intro lb
  refine @LiveBlock.liveBlockInduction
    (fun b => b.wf = true → load_tree b.as_dict b = b)
    (fun dn ds cat vs cs m ih => ?_) lb
  intro hwf
  obtain ⟨hdv, hdc, hall⟩ := wf_children hwf
  show load_tree (LiveBlock.mk dn ds cat vs cs m).as_dict (.mk dn ds cat vs cs m) =
    .mk dn ds cat vs cs m
  rw [LiveBlock.as_dict_mk, load_tree_mk]
  simp only [Block.vars, Block.blocks]
  congr 1
  · apply map_self
    intro p hp
    rw [alookup_map_value LiveVar.toVariable,
      alookup_of_distinct_mem hdv (show (p.1, p.2) ∈ vs by simpa using hp)]
    simp [LiveVar.toVariable, pushValue_serialize_self]
  · apply map_self
    intro p hp
    rw [alookup_map_value LiveBlock.as_dict,
      alookup_of_distinct_mem hdc (show (p.1, p.2) ∈ cs by simpa using hp)]
    simp [ih p hp (hall p hp)]

theorem var_missing_rec_self :
    ∀ lb : LiveBlock, lb.wf = true →
      ∀ path, var_missing_rec path lb.as_dict lb = [] := by
  intro lb
  refine @LiveBlock.liveBlockInduction
    (fun b => b.wf = true → ∀ path, var_missing_rec path b.as_dict b = [])
    (fun dn ds cat vs cs m ih => ?_) lb
  intro hwf path
  obtain ⟨hdv, hdc, hall⟩ := wf_children hwf
  show var_missing_rec path (LiveBlock.mk dn ds cat vs cs m).as_dict (.mk dn ds cat vs cs m) = []
  rw [LiveBlock.as_dict_mk, var_missing_rec_mk]
  simp only [Block.vars, Block.blocks]
  have hfil : vs.filter
      (fun p => (alookup p.1 (vs.map (fun q => (q.1, q.2.toVariable)))).isNone) = [] := by
    rw [List.filter_eq_nil_iff]
    intro p hp
    rw [alookup_map_value LiveVar.toVariable]
    have h1 := alookup_isSome_of_mem hp
    cases halk : alookup p.1 vs with
    | none =>
      rw [halk] at h1
      simp at h1
    | some v => simp [halk]
  rw [hfil]
  simp only [List.isEmpty_nil, if_true, List.nil_append]
  rw [List.flatten_eq_nil_iff]
  intro l hl
  rcases List.mem_map.mp hl with ⟨p, hp, hpe⟩
  rw [← hpe, alookup_map_value LiveBlock.as_dict,
    alookup_of_distinct_mem hdc (show (p.1, p.2) ∈ cs by simpa using hp)]
  simp [ih p hp (hall p hp)]

theorem var_extra_rec_self :
    ∀ lb : LiveBlock, lb.wf = true →
      ∀ path, var_extra_rec path lb.as_dict lb = [] := by
  intro lb
  refine @LiveBlock.liveBlockInduction
    (fun b => b.wf = true → ∀ path, var_extra_rec path b.as_dict b = [])
    (fun dn ds cat vs cs m ih => ?_) lb
  intro hwf path
  obtain ⟨hdv, hdc, hall⟩ := wf_children hwf
  show var_extra_rec path (LiveBlock.mk dn ds cat vs cs m).as_dict (.mk dn ds cat vs cs m) = []
  rw [LiveBlock.as_dict_mk, var_extra_rec_mk]
  simp only [Block.vars, Block.blocks]
  have hfil : (vs.map (fun q => (q.1, q.2.toVariable))).filter
      (fun p => (alookup p.1 vs).isNone) = [] := by
    rw [List.filter_eq_nil_iff]
    intro p hp
    rcases List.mem_map.mp hp with ⟨q, hq, hqe⟩
    have h1 : (alookup q.1 vs).isSome = true := alookup_isSome_of_mem hq
    rw [← hqe]
    cases halk : alookup q.1 vs with
    | none =>
      rw [halk] at h1
      simp at h1
    | some v => simp [halk]
  rw [hfil]
  simp only [List.isEmpty_nil, if_true, List.nil_append]
  rw [List.flatten_eq_nil_iff]
  intro l hl
  rcases List.mem_map.mp hl with ⟨p, hp, hpe⟩
  rw [← hpe, alookup_map_value LiveBlock.as_dict,
    alookup_of_distinct_mem hdc (show (p.1, p.2) ∈ cs by simpa using hp)]
  simp [ih p hp (hall p hp)]

/-- A concrete bound interface mirroring the MockBlock of the test suite:
root "Flowsheet" exporting scalar `foo_var` (value 0.0) and `bar_var`
indexed over {0, 1, 2} (values 0.0), with two registered empty
sub-blocks. -/
def mock_live_root : LiveBlock :=
  .mk "Flowsheet" "flowsheet description" "default"
    [("foo_var", { display_name := "foo variable", value := ModelValue.scalar (.num 0) }),
     ("bar_var", { display_name := "bar variable",
                   value := ModelValue.indexed
                     [([SVal.num 0], SVal.num 0), ([SVal.num 1], SVal.num 0),
                      ([SVal.num 2], SVal.num 0)] })]
    [("subblock1", .mk "subblock1" "sub-block 1" "default" [] [] []),
     ("subblock2", .mk "subblock2" "sub-block 2" "default" [] [] [])]
    []

/-- The mock Flowsheet Interface bound to `mock_live_root`. -/
def mock_fsi : FlowsheetInterface :=
  { root_name := "Flowsheet", root := mock_live_root, meta := [] }

theorem mock_fsi_wf : mock_fsi.wf = true := by
  simp [FlowsheetInterface.wf, mock_fsi, mock_live_root, LiveBlock.wf_mk, distinct,
    keysOf, List.contains, List.elem]

/-- C4: round trip — for every bound Flowsheet Interface (well-formed: dict
keys distinct, as Python dicts guarantee), with the live variable set
unchanged between save and load (no mutation interleaves in this pure
state), `load_from(save(x), same_root_block)` yields an interface whose
`as_dict()` output is structurally equal to that of the original. -/
theorem C4_roundtrip_save_load (fsi : FlowsheetInterface) (hwf : fsi.wf = true) :
    ∃ fsi2, fsi.load_json fsi.save = some fsi2 ∧ fsi2.as_dict = fsi.as_dict := by
  refine ⟨fsi.load_dict fsi.as_dict, ?_, ?_⟩
  · simp [FlowsheetInterface.load_json, FlowsheetInterface.save, parseTopDict_toJson]
  · show (fsi.load_dict fsi.as_dict).as_dict = fsi.as_dict
    simp [FlowsheetInterface.load_dict, FlowsheetInterface.as_dict, alookup,
      load_tree_self fsi.root hwf]

/-- Witness for C4: the round trip at the concrete mock interface. -/
theorem C4_roundtrip_save_load_witness :
    mock_fsi.wf = true ∧
    ∃ fsi2, mock_fsi.load_json mock_fsi.save = some fsi2 ∧
      fsi2.as_dict = mock_fsi.as_dict :=
  ⟨by simp [FlowsheetInterface.wf, mock_fsi, mock_live_root, LiveBlock.wf_mk, distinct,
      keysOf, List.contains, List.elem],
   C4_roundtrip_save_load mock_fsi
     (by simp [FlowsheetInterface.wf, mock_fsi, mock_live_root, LiveBlock.wf_mk, distinct,
       keysOf, List.contains, List.elem])⟩

/-- The loaded tree of the missing-variables test scenario: the saved
`as_dict()` output of the mock interface with the variables of the root
block removed before saving. -/
def c1_loaded_dict : TopDict :=
  { blocks := mock_fsi.as_dict.blocks.map (fun p =>
      (p.1, match p.2 with
            | .mk dn ds cat _ bs m => Block.mk dn ds cat [] bs m)),
    meta := mock_fsi.as_dict.meta }

/-- C1: loading a file in which the live export had 2 variables and the
file lists none of them (both removed from the root block before saving)
records exactly the 2 removed names as missing for the root block, records
no extra variables, and leaves the live tree at its current values. -/
theorem C1_load_missing_eval :
    (mock_fsi.load_dict c1_loaded_dict).var_missing =
        some [(["Flowsheet"], ["foo_var", "bar_var"])] ∧
      (mock_fsi.load_dict c1_loaded_dict).var_extra = some [] ∧
      (mock_fsi.load_dict c1_loaded_dict).root = mock_fsi.root := by
  refine ⟨?_, ?_, ?_⟩ <;>
    simp [mock_fsi, mock_live_root, c1_loaded_dict, FlowsheetInterface.load_dict,
      FlowsheetInterface.as_dict, alookup, LiveBlock.as_dict_mk, load_tree_mk,
      var_missing_rec_mk, var_extra_rec_mk, LiveVar.toVariable, keysOf,
      Block.vars, Block.blocks, pushValue, serializeValue, mkIndexedValue]

/-- C5: read-only protection.  Part (a): `set_exported_variable_value` on a
variable whose readonly flag is true leaves the live block unchanged, for
every supplied value.  Part (b): during load, a variable matched in both
trees is left untouched when readonly and receives the loaded value
(pushed with shape honored) otherwise. -/
theorem C5_readonly_protection :
    (∀ (lb : LiveBlock) (name : String) (v : VarValue),
      (∀ p ∈ lb.vars, p.1 = name → p.2.readonly = true) →
      set_exported_variable_value lb name v = lb) ∧
    (∀ (loaded : Block) (dn ds cat : String) (vs : List (String × LiveVar))
       (cs : List (String × LiveBlock)) (m : List (String × Json)),
      distinct (keysOf vs) = true →
      ∀ p ∈ vs, ∀ dv, alookup p.1 loaded.vars = some dv →
      alookup p.1 (load_tree loaded (LiveBlock.mk dn ds cat vs cs m)).vars =
        some (if p.2.readonly then p.2 else pushValue p.2 dv.value)) := by
  constructor
  · intro lb name v h
    obtain ⟨dn, ds, cat, vs, cs, m⟩ := lb
    simp only [LiveBlock.vars] at h
    simp only [set_exported_variable_value]
    congr 1
    apply map_self
    intro p hp
    by_cases hn : p.1 == name
    · have hro := h p hp (by simpa using hn)
      simp [hn, hro]
    · simp [hn]
  · intro loaded dn ds cat vs cs m hd p hp dv hdv
    rw [load_tree_mk]
    simp only [LiveBlock.vars]
    have hkeys : keysOf (vs.map (fun q => ((alookup q.1 loaded.vars).map (fun dw =>
        (q.1, if q.2.readonly then q.2 else pushValue q.2 dw.value))).getD q)) =
        keysOf vs := by
      simp only [keysOf, List.map_map]
      apply List.map_congr_left
      intro q hq
      simp only [Function.comp_apply]
      cases alookup q.1 loaded.vars <;> simp
    have hdmap : distinct (keysOf (vs.map (fun q => ((alookup q.1 loaded.vars).map (fun dw =>
        (q.1, if q.2.readonly then q.2 else pushValue q.2 dw.value))).getD q))) = true := by
      rw [hkeys]
      exact hd
    have hmem := List.mem_map_of_mem (fun q => ((alookup q.1 loaded.vars).map (fun dw =>
        (q.1, if q.2.readonly then q.2 else pushValue q.2 dw.value))).getD q) hp
    have hfp : (fun q => ((alookup q.1 loaded.vars).map (fun dw =>
        (q.1, if q.2.readonly then q.2 else pushValue q.2 dw.value))).getD q) p =
        (p.1, if p.2.readonly then p.2 else pushValue p.2 dv.value) := by
      simp only [hdv]
      rfl
    rw [hfp] at hmem
    exact alookup_of_distinct_mem hdmap hmem

/-- A live block with a writable `foo_var` and a readonly `bar_var`, as in
the readonly test of the test suite. -/
def readonly_demo_block : LiveBlock :=
  .mk "Flowsheet" "flowsheet description" "default"
    [("foo_var", { value := ModelValue.scalar (.num 0) }),
     ("bar_var", { readonly := true, value := ModelValue.scalar (.num 0) })]
    [] []

/-- The loaded counterpart of `readonly_demo_block` with every value
changed to 1 (the saved file mutated by adding one). -/
def readonly_demo_loaded : Block :=
  .mk "Flowsheet" "flowsheet description" "default"
    [("foo_var", { value := some (Sum.inr ⟨SVal.num 1⟩) }),
     ("bar_var", { readonly := true, value := some (Sum.inr ⟨SVal.num 1⟩) })]
    [] []

/-- Witness for C5 at the concrete readonly scenario of the test suite. -/
theorem C5_readonly_protection_witness :
    ((∀ p ∈ readonly_demo_block.vars, p.1 = "bar_var" → p.2.readonly = true) ∧
      set_exported_variable_value readonly_demo_block "bar_var"
        (some (Sum.inr ⟨SVal.num 5⟩)) = readonly_demo_block) ∧
    (distinct (keysOf readonly_demo_block.vars) = true ∧
      alookup "foo_var" (load_tree readonly_demo_loaded readonly_demo_block).vars =
        some { display_name := "", description := "", units := "", readonly := false,
               value := ModelValue.scalar (SVal.num 1) }) := by
  constructor
  · exact ⟨by decide,
      C5_readonly_protection.1 readonly_demo_block "bar_var"
        (some (Sum.inr ⟨SVal.num 5⟩)) (by decide)⟩
  · refine ⟨by decide, ?_⟩
    have h := C5_readonly_protection.2 readonly_demo_loaded "Flowsheet"
      "flowsheet description" "default"
      [("foo_var", { value := ModelValue.scalar (.num 0) }),
       ("bar_var", { readonly := true, value := ModelValue.scalar (.num 0) })]
      [] [] (by decide)
      ("foo_var", { value := ModelValue.scalar (.num 0) }) (by decide)
      { value := some (Sum.inr ⟨SVal.num 1⟩) } (by rfl)
    simpa [readonly_demo_block, readonly_demo_loaded, pushValue] using h

/-- Keys of a JSON object, in order (empty for non-objects). -/
def jsonKeys : Json → List String
  | .obj flds => keysOf flds
  | _ => []

/-- Field lookup in a JSON object (none for non-objects). -/
def jsonLookup (n : String) : Json → Option Json
  | .obj flds => alookup n flds
  | _ => none

/-- C9: for every bound Flowsheet Interface the serialized `as_dict()`
output has exactly the top-level keys `blocks` and `meta` — `variables` is
never a top-level key — and `blocks` holds the single root entry, inside
which the display name, description, category and the directly exported
variables of the flowsheet appear. -/
theorem C9_as_dict_top_level (fsi : FlowsheetInterface) :
    jsonKeys fsi.save = ["blocks", "meta"] ∧
    "variables" ∉ jsonKeys fsi.save ∧
    ∃ rb, jsonLookup "blocks" fsi.save = some (.obj [(fsi.root_name, rb)]) ∧
      jsonKeys rb = ["display_name", "description", "category", "variables",
                     "blocks", "meta"] ∧
      jsonLookup "variables" rb =
        some (.obj ((get_exported_variables fsi.root).map (fun p => (p.1, p.2.toJson)))) := by
  refine ⟨rfl, ?_, fsi.root.as_dict.toJson, rfl, ?_, ?_⟩
  · have h1 : jsonKeys fsi.save = ["blocks", "meta"] := rfl
    rw [h1]
    decide
  · obtain ⟨rn, root, meta, vm, ve⟩ := fsi
    obtain ⟨dn, ds, cat, vs, cs, m⟩ := root
    rw [LiveBlock.as_dict_mk, Block.toJson_mk]
    rfl
  · obtain ⟨rn, root, meta, vm, ve⟩ := fsi
    obtain ⟨dn, ds, cat, vs, cs, m⟩ := root
    rw [LiveBlock.as_dict_mk, Block.toJson_mk]
    rfl

/-- The scalar shape test of a `Variable` value. -/
def Variable.isScalarShape (v : Variable) : Bool :=
  match v.value with
  | some (.inr _) => true
  | _ => false

/-- The indexed shape test of a `Variable` value. -/
def Variable.isIndexedShape (v : Variable) : Bool :=
  match v.value with
  | some (.inl _) => true
  | _ => false

/-- The predicate claimed by C2: exactly one of the two shapes applies. -/
def Variable.carriesExactlyOneShape (v : Variable) : Bool :=
  (v.isScalarShape && !v.isIndexedShape) || (!v.isScalarShape && v.isIndexedShape)

/-- C2 counterexample: the schema admits a `Variable` that carries neither
shape.  Deserializing the JSON object with no fields succeeds (pydantic
defaults, `value` is `Optional`) and yields `value = None`, which is
neither scalar nor indexed — so a `Variable` does not always carry exactly
one of the two shapes. -/
theorem C2_counterexample :
    parseVariable (Json.obj []) = some ({ } : Variable) ∧
    ({ } : Variable).carriesExactlyOneShape = false := ⟨rfl, rfl⟩

/-- C2 amended: a `Variable` never carries both shapes simultaneously, and
whenever its value is present it carries exactly one of the two shapes;
only a `Variable` whose value is absent (`None`) carries neither. -/
theorem C2_amended_shape (v : Variable) :
    (v.isScalarShape && v.isIndexedShape) = false ∧
    (v.value = none ∨ v.carriesExactlyOneShape = true) := by
  obtain ⟨dn, ds, un, ro, vv⟩ := v
  cases vv with
  | none => exact ⟨rfl, Or.inl rfl⟩
  | some w =>
    cases w with
    | inl iv => exact ⟨rfl, Or.inr rfl⟩
    | inr sv => exact ⟨rfl, Or.inr rfl⟩

/-- C3: strict one-to-one correspondence of the parallel sequences of an
`IndexedValue`.  The export operation builds the index and value sequences
as the two projections of the (index, value) pairs of the model: the
lengths agree and zipping them back recovers exactly those pairs, so the
i-th index stays paired with the i-th value; and the load operation
(`pushValue`) consumes an `IndexedValue` by exactly that positional zip,
preserving the correspondence. -/
theorem C3_indexed_parallel (entries : List (List SVal × SVal)) (lv : LiveVar)
    (iv : IndexedValue) :
    (mkIndexedValue entries).index.length = (mkIndexedValue entries).value.length ∧
    (mkIndexedValue entries).index.zip (mkIndexedValue entries).value = entries ∧
    pushValue lv (some (.inl iv)) =
      { lv with value := ModelValue.indexed (iv.index.zip iv.value) } := by
  refine ⟨?_, zip_map_fst_snd_self entries, rfl⟩
  simp [mkIndexedValue]

/-- C10: the pydantic defaults of `api_model.py` — a `Variable` built or
deserialized without explicit metadata fields has empty display name,
description and units and `readonly = False` (so a variable loaded from a
file omitting `readonly` is write-enabled), and a `Block` without explicit
fields has `category = "default"` and empty variables, blocks and meta. -/
theorem C10_defaults :
    parseVariable (Json.obj []) = some (Variable.mk "" "" "" false none) ∧
    ({ } : Variable) = Variable.mk "" "" "" false none ∧
    parseBlock (Json.obj []) = some Block.default ∧
    (∀ flds v, alookup "readonly" flds = none →
      parseVariable (Json.obj flds) = some v → v.readonly = false) := by
  refine ⟨rfl, rfl, ?_, ?_⟩
  · simp [parseBlock, parseStrField, parseVarsField, parseMetaField, alookup,
      Block.default]
  · intro flds v hro hp
    simp only [parseVariable, parseBoolField, hro] at hp
    split at hp
    · rename_i dn ds un ro heq
      split at hp
      · cases hp
        simp_all
      · cases hp
        simp_all
      · rename_i jv hnull hjv
        cases hpv : parseVarValue jv with
        | none => rw [hpv] at hp; simp at hp
        | some w =>
          rw [hpv] at hp
          simp only [Option.map_some'] at hp
          cases hp
          simp_all
    · simp at hp

/-! ## Variable export specification (spec section 4.2) -/

/-- Modelled from the spec (4.2): an element of a sequence passed as the
`variables` argument: a variable-name string, or (malformed inside a
sequence) a mapping. -/
inductive VarsElt where
  | str (name : String)
  | mapping (fields : List (String × Json))

/-- Modelled from the spec (3/4.2): one options record of the export
specification: optional display metadata overrides and a readonly flag. -/
structure VarOptions where
  display_name : Option String := none
  description : Option String := none
  readonly : Option Bool := none
deriving DecidableEq

/-- Modelled from the spec (4.2): the Python shapes a caller may pass as
the `variables` argument of `export_variables`: a sequence, a mapping from
variable name to an options record, or a bare scalar (string or number). -/
inductive VarsArg where
  | vlist (elems : List VarsElt)
  | vdict (entries : List (String × VarOptions))
  | vstr (s : String)
  | vnum (x : Rat)

/-- Modelled from the spec (4.2): validate a sequence element by element —
every element must be a string, else the whole call fails with a
validation error identifying the offending entry. -/
def validate_list : List VarsElt → Except PyErr (List (String × VarOptions))
  | [] => .ok []
  | .str n :: t => (validate_list t).map (fun r => (n, { }) :: r)
  | .mapping _ :: _ => .error .valueError

/-- Modelled from the spec (4.2): validation and normalization of the
`variables` argument: a sequence of strings (each name with default
options), or a mapping taken as is; any other shape is a validation
error. -/
def validate_export_vars : VarsArg → Except PyErr (List (String × VarOptions))
  | .vlist elems => validate_list elems
  | .vdict entries => .ok entries
  | .vstr _ => .error .valueError
  | .vnum _ => .error .valueError

/-- Insert or overwrite one export-specification entry by name. -/
def upsert (l : List (String × α)) (e : String × α) : List (String × α) :=
  if (alookup e.1 l).isSome then l.map (fun p => if p.1 == e.1 then e else p)
  else l ++ [e]

/-- Modelled from the spec (4.2): `export_variables` — validates the
`variables` argument at the call itself and merges the normalized entries
into the export specification: previously exported names are retained,
re-specified names are overwritten. -/
def export_variables (spec0 : List (String × VarOptions)) (arg : VarsArg) :
    Except PyErr (List (String × VarOptions)) :=
  (validate_export_vars arg).map (fun entries => entries.foldl upsert spec0)

/-- The well-formed `variables` argument shapes, in the words of the spec:
a sequence of variable-name strings, or a mapping from name to options. -/
def wellFormedVarsSpec : VarsArg → Bool
  | .vlist elems => elems.all (fun e => match e with | .str _ => true | _ => false)
  | .vdict _ => true
  | .vstr _ => false
  | .vnum _ => false

theorem validate_list_spec (elems : List VarsElt) :
    ((elems.all (fun e => match e with | .str _ => true | _ => false)) = true →
      ∃ r, validate_list elems = .ok r) ∧
    ((elems.all (fun e => match e with | .str _ => true | _ => false)) = false →
      validate_list elems = .error .valueError) := by
  induction elems with
  | nil => exact ⟨fun _ => ⟨[], rfl⟩, fun h => by simp at h⟩
  | cons e t ih =>
    cases e with
    | str n =>
      constructor
      · intro h
        simp only [List.all_cons] at h
        obtain ⟨r, hr⟩ := ih.1 (by simpa using h)
        exact ⟨(n, { }) :: r, by simp [validate_list, hr, Except.map]⟩
      · intro h
        simp only [List.all_cons] at h
        have := ih.2 (by simpa using h)
        simp [validate_list, this, Except.map]
    | mapping flds =>
      exact ⟨fun h => by simp at h, fun _ => rfl⟩

/-- C6: `export_variables` fails with a validation error for every
malformed `variables` argument (a sequence containing a non-string
element, in particular a mixed sequence; a bare scalar) and succeeds for
every well-formed argument (a sequence of name strings; a mapping from
name to options), with the error signaled at the export call itself. -/
theorem C6_export_validation (spec0 : List (String × VarOptions)) (arg : VarsArg) :
    (wellFormedVarsSpec arg = true → ∃ r, export_variables spec0 arg = .ok r) ∧
    (wellFormedVarsSpec arg = false → export_variables spec0 arg = .error .valueError) := by
  cases arg with
  | vlist elems =>
    constructor
    · intro h
      obtain ⟨r, hr⟩ := (validate_list_spec elems).1 (by simpa [wellFormedVarsSpec] using h)
      exact ⟨r.foldl upsert spec0, by simp [export_variables, validate_export_vars, hr, Except.map]⟩
    · intro h
      have := (validate_list_spec elems).2 (by simpa [wellFormedVarsSpec] using h)
      simp [export_variables, validate_export_vars, this, Except.map]
  | vdict entries =>
    exact ⟨fun _ => ⟨entries.foldl upsert spec0, rfl⟩, fun h => by simp [wellFormedVarsSpec] at h⟩
  | vstr s => exact ⟨fun h => by simp [wellFormedVarsSpec] at h, fun _ => rfl⟩
  | vnum x => exact ⟨fun h => by simp [wellFormedVarsSpec] at h, fun _ => rfl⟩

/-- Witness for C6 at the concrete arguments of the test suite: the mixed
list `[{"name": "foo_var"}, "bar_var"]` and the scalars `12` and `"foo"`
fail with a validation error; the list `["foo_var", "bar_var"]` and the
mapping from foo_var to the options readonly True and display name
The Foo succeed. -/
theorem C6_export_validation_witness :
    (wellFormedVarsSpec (.vlist [.mapping [("name", .str "foo_var")], .str "bar_var"]) = false ∧
      export_variables [] (.vlist [.mapping [("name", .str "foo_var")], .str "bar_var"]) =
        .error .valueError) ∧
    (wellFormedVarsSpec (.vnum 12) = false ∧
      export_variables [] (.vnum 12) = .error .valueError) ∧
    (wellFormedVarsSpec (.vstr "foo") = false ∧
      export_variables [] (.vstr "foo") = .error .valueError) ∧
    (wellFormedVarsSpec (.vlist [.str "foo_var", .str "bar_var"]) = true ∧
      ∃ r, export_variables [] (.vlist [.str "foo_var", .str "bar_var"]) = .ok r) ∧
    (wellFormedVarsSpec (.vdict [("foo_var", VarOptions.mk (some "The Foo") none (some true))]) = true ∧
      ∃ r, export_variables []
        (.vdict [("foo_var", VarOptions.mk (some "The Foo") none (some true))]) = .ok r) :=
  ⟨⟨rfl, (C6_export_validation [] _).2 rfl⟩,
   ⟨rfl, (C6_export_validation [] _).2 rfl⟩,
   ⟨rfl, (C6_export_validation [] _).2 rfl⟩,
   ⟨rfl, (C6_export_validation [] _).1 rfl⟩,
   ⟨rfl, (C6_export_validation [] _).1 rfl⟩⟩

/-! ## Action registry (spec section 4.5) -/

/-- Modelled from the spec (4.5): one registered action type: its
prerequisite action names (declared at registration, immutable
thereafter) and, once `set_action` ran, a callable identifier with fixed
keyword arguments. -/
structure ActionEntry where
  deps : List String
  func : Option (String × List (String × SVal)) := none
deriving DecidableEq

/-- The action registry, in registration order. -/
abbrev ActionRegistry := List (String × ActionEntry)

/-- Modelled from the spec (4.5): the built-in action types (build, solve)
exist unconditionally at construction and need no registration. -/
def default_action_registry : ActionRegistry :=
  [("build", { deps := [] }), ("solve", { deps := [] })]

/-- Modelled from the spec (4.5) and the test suite: `add_action_type` —
rejects a self-referential declaration with a validation error (checked
first: the test demands a ValueError for a self-dependency even of a name
that is not yet registered), then rejects any dependency that is not an
already registered action type with a lookup error; on failure the
registry is returned unchanged. -/
def add_action_type (name : String) (deps : List String) (reg : ActionRegistry) :
    Except PyErr Unit × ActionRegistry :=
  if deps.contains name then (.error .valueError, reg)
  else if deps.all (fun d => (alookup d reg).isSome) then
    (.ok (), reg ++ [(name, { deps := deps })])
  else (.error .keyError, reg)

/-- Modelled from the spec (4.5): `set_action` — attaches a callable
(identified by name) and fixed keyword arguments to a registered action
type; lookup error when the name is unregistered. -/
def set_action (name : String) (fid : String) (kwargs : List (String × SVal))
    (reg : ActionRegistry) : Except PyErr ActionRegistry :=
  if (alookup name reg).isSome then
    .ok (reg.map (fun p =>
      if p.1 == name then (p.1, { p.2 with func := some (fid, kwargs) }) else p))
  else .error .keyError

/-- Modelled from the spec (4.5): `get_action` — the stored (callable,
kwargs) pair; lookup error when unregistered or unset. -/
def get_action (name : String) (reg : ActionRegistry) :
    Except PyErr (String × List (String × SVal)) :=
  match alookup name reg with
  | some e =>
    match e.func with
    | some f => .ok f
    | none => .error .keyError
  | none => .error .keyError

/-- C7 counterexample: at the input of the test suite — registering "a1"
with deps ["a1"], "a1" itself unregistered — the dependency "a1" is not an
already registered action type, yet the call fails with a validation
error and not with the lookup error the claim demands for every
unregistered dependency (the self-dependency check comes first). -/
theorem C7_counterexample :
    "a1" ∈ ["a1"] ∧
    alookup "a1" default_action_registry = none ∧
    (add_action_type "a1" ["a1"] default_action_registry).1 = .error .valueError ∧
    (add_action_type "a1" ["a1"] default_action_registry).1 ≠ .error .keyError := by
  refine ⟨by decide, rfl, rfl, ?_⟩
  intro h
  rw [show (add_action_type "a1" ["a1"] default_action_registry).1 =
    Except.error PyErr.valueError from rfl] at h
  injection h with h2
  exact PyErr.noConfusion h2

/-- C7 amended: `add_action_type` fails with a validation error whenever
the new name appears in its own deps list (this check comes first), and —
when the name does not appear in its deps — fails with a lookup error
whenever some dependency is not an already registered action type; both
failures happen at registration time with the registry unchanged. -/
theorem C7_amended_add_action_type (name : String) (deps : List String)
    (reg : ActionRegistry) :
    (deps.contains name = true →
      add_action_type name deps reg = (.error .valueError, reg)) ∧
    (deps.contains name = false →
      deps.all (fun d => (alookup d reg).isSome) = false →
      add_action_type name deps reg = (.error .keyError, reg)) := by
  constructor
  · intro h
    have hm : name ∈ deps := List.elem_iff.mp h
    simp [add_action_type, hm]
  · intro h1 h2
    have hm1 : name ∉ deps := by
      intro hmem
      have he := List.elem_iff.mpr hmem
      rw [show deps.contains name = List.elem name deps from rfl, he] at h1
      exact Bool.noConfusion h1
    have h2m : ¬∀ x ∈ deps, (alookup x reg).isSome = true := by
      rw [List.all_eq_false] at h2
      obtain ⟨x, hx, hnx⟩ := h2
      intro hall
      exact hnx (hall x hx)
    simp [add_action_type, hm1, h2m]

/-- Witness for C7 at the two failing registrations of the test suite. -/
theorem C7_amended_add_action_type_witness :
    (["a1"].contains "a1" = true ∧
      add_action_type "a1" ["a1"] default_action_registry =
        (.error .valueError, default_action_registry)) ∧
    (["open-door"].contains "go-inside" = false ∧
      ["open-door"].all (fun d => (alookup d default_action_registry).isSome) = false ∧
      add_action_type "go-inside" ["open-door"] default_action_registry =
        (.error .keyError, default_action_registry)) :=
  ⟨⟨by decide,
    (C7_amended_add_action_type "a1" ["a1"] default_action_registry).1 (by decide)⟩,
   ⟨by decide, by decide,
    (C7_amended_add_action_type "go-inside" ["open-door"] default_action_registry).2
      (by decide) (by decide)⟩⟩

/-- An execution trace entry: the invoked action name together with the
stored keyword arguments its callable receives. -/
abbrev TraceEntry := String × List (String × SVal)

/-- Modelled from the spec (4.5): `run_action(name)` — recursively runs
every declared dependency of the action first, in declaration order (each
dependency in turn runs its own dependencies before itself: deepest
first), then invokes the callable of the action with its stored keyword
arguments; re-executed unconditionally on every call.  The result is the
invocation trace in execution order.  Fuel bounds the recursion depth
(dependencies pre-exist at registration, so cycles are impossible and any
fuel of at least the registry size suffices); `none` models the raised
Python exception for an unknown action or an unset callable. -/
def run_action_fuel : Nat → ActionRegistry → String → Option (List TraceEntry)
  | 0, _, _ => none
  | fuel + 1, reg, name =>
    match alookup name reg with
    | none => none
    | some e =>
      match e.func with
      | none => none
      | some f =>
        ((omap (fun d => run_action_fuel fuel reg d) e.deps).map List.flatten).map
          (fun ts => ts ++ [(name, f.2)])

theorem omap_mem {p : α → Option β} :
    ∀ {l : List α} {ys : List β}, omap p l = some ys →
      ∀ x ∈ l, ∃ y ∈ ys, p x = some y := by
  intro l
  induction l with
  | nil => intro ys h x hx; simp at hx
  | cons a t ih =>
    intro ys h x hx
    simp only [omap] at h
    cases hpa : p a with
    | none => rw [hpa] at h; simp at h
    | some y0 =>
      rw [hpa] at h
      cases ht : omap p t with
      | none => rw [ht] at h; simp at h
      | some ys0 =>
        rw [ht] at h
        simp only [Option.some.injEq] at h
        rcases List.mem_cons.mp hx with h1 | h2
        · exact ⟨y0, by rw [← h]; simp, by rw [h1]; exact hpa⟩
        · obtain ⟨y, hy, hpy⟩ := ih ht x h2
          exact ⟨y, by rw [← h]; simp [hy], hpy⟩

/-- Every successful `run_action_fuel` trace ends with the invocation of
the action itself. -/
theorem run_action_fuel_last {fuel : Nat} {reg : ActionRegistry}
    {name : String} {tr : List TraceEntry}
    (h : run_action_fuel fuel reg name = some tr) :
    ∃ pre kw, tr = pre ++ [(name, kw)] := by
  cases fuel with
  | zero => simp [run_action_fuel] at h
  | succ f =>
    simp only [run_action_fuel] at h
    cases halk : alookup name reg with
    | none => simp [halk] at h
    | some e =>
      simp only [halk] at h
      cases hf : e.func with
      | none => simp [hf] at h
      | some fc =>
        simp only [hf] at h
        cases homap : (omap (fun d => run_action_fuel f reg d) e.deps) with
        | none => simp [homap] at h
        | some ts =>
          simp only [homap, Option.map_some', Option.some.injEq] at h
          exact ⟨ts.flatten, fc.2, h.symm⟩

/-- C8: on every successful `run_action` call, the trace is the
concatenation of the dependency traces, in declaration order, followed by
the one invocation of the action itself with its stored keyword
arguments; in particular every declared dependency is executed (appears
in the prefix) strictly before the callable of the action runs, and each
dependency trace itself ends with that dependency after its own
dependencies (deepest first). -/
theorem C8_run_action_order (fuel : Nat) (reg : ActionRegistry) (name : String)
    (tr : List TraceEntry) (h : run_action_fuel (fuel + 1) reg name = some tr) :
    ∃ e fid kw pre, alookup name reg = some e ∧ e.func = some (fid, kw) ∧
      tr = pre ++ [(name, kw)] ∧
      (omap (fun d => run_action_fuel fuel reg d) e.deps).map List.flatten = some pre ∧
      ∀ d ∈ e.deps, ∃ kwd, (d, kwd) ∈ pre := by
  simp only [run_action_fuel] at h
  cases halk : alookup name reg with
  | none => simp [halk] at h
  | some e =>
    simp only [halk] at h
    cases hf : e.func with
    | none => simp [hf] at h
    | some fc =>
      simp only [hf] at h
      cases homap : (omap (fun d => run_action_fuel fuel reg d) e.deps) with
      | none => simp [homap] at h
      | some ts =>
        simp only [homap, Option.map_some', Option.some.injEq] at h
        refine ⟨e, fc.1, fc.2, ts.flatten, rfl, hf, h.symm, by simp [homap], ?_⟩
        intro d hd
        obtain ⟨trd, htrd, hrun⟩ := omap_mem homap d hd
        obtain ⟨pred, kwd, hpd⟩ := run_action_fuel_last hrun
        refine ⟨kwd, ?_⟩
        have : (d, kwd) ∈ trd := by
          rw [hpd]
          simp
        exact List.mem_flatten.mpr ⟨trd, htrd, this⟩

/-- The concrete registry of the test suite scenario: built-ins plus
`cook` (no deps, callable with the stored dish keyword argument) and
`eat` (depends on cook). -/
def cook_eat_registry : ActionRegistry :=
  [("build", { deps := [] }), ("solve", { deps := [] }),
   ("cook", { deps := [],
              func := some ("add_action_cook", [("dish", SVal.str "mac&cheese")]) }),
   ("eat", { deps := ["cook"], func := some ("add_action_eat", []) })]

/-- Witness for C8 on the chain cook before eat: the concrete trace runs
the side effect of cook strictly before that of eat, and the order theorem
applies to it. -/
theorem C8_run_action_order_witness :
    run_action_fuel 2 cook_eat_registry "eat" =
      some [("cook", [("dish", SVal.str "mac&cheese")]), ("eat", [])] ∧
    ∃ e fid kw pre, alookup "eat" cook_eat_registry = some e ∧ e.func = some (fid, kw) ∧
      [("cook", [("dish", SVal.str "mac&cheese")]), ("eat", ([] : List (String × SVal)))] =
        pre ++ [("eat", kw)] ∧
      (omap (fun d => run_action_fuel 1 cook_eat_registry d) e.deps).map List.flatten =
        some pre ∧
      ∀ d ∈ e.deps, ∃ kwd, (d, kwd) ∈ pre :=
  ⟨by decide,
   C8_run_action_order 1 cook_eat_registry "eat"
     [("cook", [("dish", SVal.str "mac&cheese")]), ("eat", [])] (by decide)⟩

/-- Witness for C10: a variable deserialized from an object that omits the
`readonly` field (here carrying only a display name) is write-enabled. -/
theorem C10_defaults_witness :
    alookup "readonly" [("display_name", Json.str "x")] = none ∧
    parseVariable (Json.obj [("display_name", Json.str "x")]) =
      some (Variable.mk "x" "" "" false none) ∧
    (Variable.mk "x" "" "" false none).readonly = false :=
  ⟨rfl, rfl,
   C10_defaults.2.2.2 [("display_name", Json.str "x")]
     (Variable.mk "x" "" "" false none) rfl rfl⟩
